import Mathlib

/-!
# Shivanosh image container codec — shallow embedding

Embedding of the codec core of `src/main.rs` (ShivanoshConverter):
the encoder `convert_image_to_shivanosh` (framing + compression of an
RGBA raster) and the decoder `decompress_shivanosh` (header validation,
decompression, pixel fill).

Bytes are modelled as `Nat` (values `< 256` in every reachable state),
byte streams as `List Nat`. The zlib backend (the `flate2` crate) is an
external dependency that the codec treats as a black box; it is modelled
as an abstract `Codec` record, with losslessness
(`decompress (compress lvl b) = some b`) taken as a hypothesis where a
theorem needs it, and instantiated with a concrete codec in witnesses.

Rust `u32` arithmetic is modelled as `Nat` arithmetic with explicit
`% 2^32` where the source can overflow (release-profile wrapping
semantics). A Rust panic (out-of-bounds index, out-of-bounds
`put_pixel`) is modelled as the `none` / `.panicked` outcome.
-/

namespace Shivanosh

/-- Two to the 32nd, the modulus of Rust `u32` arithmetic. -/
def u32Mod : Nat := 4294967296

/-- An in-memory RGBA raster: the decoded form (`image::RgbaImage` on the
decoder side, the pixel grid of the opened image on the encoder side).
`data` is the flat, row-major, tightly packed R,G,B,A byte buffer. -/
structure Raster where
  width : Nat
  height : Nat
  data : List Nat
  deriving DecidableEq, Repr

/-- The abstract compression backend (`flate2` zlib in the source):
`compress level bytes` and a fallible `decompress`.  The codec core
treats it as a black box. -/
structure Codec where
  compress : Nat → List Nat → List Nat
  decompress : List Nat → Option (List Nat)

/-- Rust `flate2::Compression::best()`, zlib level 9 (`main.rs:54`). -/
def best_level : Nat := 9

/-- The 4 magic bytes, ASCII `"MYIF"` (`main.rs:59,95`). -/
def magicBytes : List Nat := [77, 89, 73, 70]

/-- Rust `u32::to_le_bytes` (`main.rs:60-61`). -/
def u32ToLEBytes (n : Nat) : List Nat :=
  [n % 256, n / 256 % 256, n / 65536 % 256, n / 16777216 % 256]

/-- Rust `u32::from_le_bytes` (`main.rs:101,105`); reads the first four bytes
of the list (missing bytes read as 0, unreachable in the decoder since
`read_exact` has already checked the length). -/
def u32FromLEBytes (b : List Nat) : Nat :=
  b.getD 0 0 + b.getD 1 0 * 256 + b.getD 2 0 * 65536 + b.getD 3 0 * 16777216

/-- The pixel-data serialization loop of the encoder (`main.rs:50-52`):
iterate over the `n = width*height` pixels of the image in row-major
order and append each pixel's 4 bytes `(r,g,b,a)` to the output. Pixel
`i` of a flat RGBA buffer is the 4-byte group at offset `4*i`. -/
def build_pixel_data : Nat → List Nat → List Nat
  | 0, _ => []
  | n + 1, buf => buf.take 4 ++ build_pixel_data n (buf.drop 4)

/-- The encoder core of `convert_image_to_shivanosh` (`main.rs:44-64`):
magic tag, little-endian width, little-endian height, then the pixel
buffer compressed at the backend's best level, with no length prefix.
(File I/O — which file the bytes are written to — is the collaborator's
concern and is not part of the byte layout.) -/
def convert_image_to_shivanosh (c : Codec) (img : Raster) : List Nat :=
  magicBytes ++ u32ToLEBytes img.width ++ u32ToLEBytes img.height ++
    c.compress best_level (build_pixel_data (img.width * img.height) img.data)

/-- Rust `RgbaImage::new width height` (`main.rs:114`): a raster of the given
dimensions with all bytes zero-initialized. -/
def rgbaImageNew (w h : Nat) : Raster :=
  ⟨w, h, List.replicate (w * h * 4) 0⟩

/-- Overwrite the 4 consecutive bytes at `off` with `r,g,b,a`: the
in-place write that `put_pixel` performs on the flat buffer. -/
def write4 (l : List Nat) (off r g b a : Nat) : List Nat :=
  l.take off ++ [r, g, b, a] ++ l.drop (off + 4)

/-- Rust `RgbaImage::put_pixel x y (Rgba [r,g,b,a])` (`main.rs:121-125`):
panics (`none`) when `(x, y)` is out of bounds, otherwise writes the
4-byte group of pixel `(x, y)` at offset `(y*width + x)*4`. -/
def put_pixel (img : Raster) (x y r g b a : Nat) : Option Raster :=
  if x < img.width ∧ y < img.height then
    some ⟨img.width, img.height, write4 img.data ((y * img.width + x) * 4) r g b a⟩
  else
    none

/-- Rust `RgbaImage::get_pixel x y`: the 4 channel bytes `[r,g,b,a]` of pixel
`(x, y)`, `none` when out of bounds. (The observation the viewer side of
the app uses, `main.rs:158-160`.) -/
def get_pixel (img : Raster) (x y : Nat) : Option (List Nat) :=
  if x < img.width ∧ y < img.height then
    some ((img.data.drop ((y * img.width + x) * 4)).take 4)
  else
    none

/-- The pixel-fill loop of the decoder (`main.rs:116-126`), processing
group indices `i, i+1, ..., i+n-1`:
reads `decompressed_data[i*4 .. i*4+3]` (a Rust index out of bounds is a
panic, modelled as `none`) and stores them via `put_pixel` at
`(i % width, i / width)`. -/
def fill_pixels (width : Nat) (d : List Nat) : Raster → Nat → Nat → Option Raster
  | img, _, 0 => some img
  | img, i, n + 1 => do
    let r ← d.get? (i * 4)
    let g ← d.get? (i * 4 + 1)
    let b ← d.get? (i * 4 + 2)
    let a ← d.get? (i * 4 + 3)
    let img2 ← put_pixel img (i % width) (i / width) r g b a
    fill_pixels width d img2 (i + 1) n

/-- The expression `(width * height * 4) as usize` (`main.rs:115`), computed in `u32`
arithmetic: both multiplications wrap modulo `2^32`. -/
def u32_pixel_count (w h : Nat) : Nat :=
  w * h % u32Mod * 4 % u32Mod

/-- The raster-reconstruction tail of the decoder (`main.rs:114-126`):
allocate a zeroed `width × height` image and run the pixel-fill loop over
`pixel_count / 4` 4-byte groups of the decompressed data, starting at
group index 0.  `none` models a panic of the loop body. -/
def reconstruct (width height : Nat) (d : List Nat) : Option Raster :=
  fill_pixels width d (rgbaImageNew width height) 0 (u32_pixel_count width height / 4)

/-- The `io::ErrorKind`-level classification of the decoder's failure
results: `unexpectedEof` is the kind `read_exact` returns when the source
is exhausted (the spec's `TruncatedHeader`); `invalidData` is the kind
built at `main.rs:96` for a bad magic tag (the spec's `InvalidFormat`);
`corruptPayload` is the error the zlib backend returns for a stream it
rejects (the spec's `CorruptPayload`). -/
inductive ErrKind where
  | unexpectedEof
  | invalidData
  | corruptPayload
  deriving DecidableEq, Repr

/-- Outcome of a decoder run: a raster, a typed `io::Error`, or a Rust
panic (which is not a return value of the function at all). -/
inductive DecodeOutcome where
  | ok (img : Raster)
  | ioError (k : ErrKind)
  | panicked
  deriving DecidableEq, Repr

/-- The decoder `decompress_shivanosh` (`main.rs:91-129`) on an in-memory
source `src`:
read 4 magic bytes (`read_exact`: fails with `UnexpectedEof` when fewer
remain), compare with `"MYIF"`, read little-endian `u32` width and
height, read the rest of the source as the compressed payload, run the
backend's decompression, then reconstruct the raster. -/
def decompress_shivanosh (c : Codec) (src : List Nat) : DecodeOutcome :=
  if src.length < 4 then .ioError .unexpectedEof
  else if src.take 4 ≠ magicBytes then .ioError .invalidData
  else if src.length < 8 then .ioError .unexpectedEof
  else if src.length < 12 then .ioError .unexpectedEof
  else
    let width := u32FromLEBytes ((src.drop 4).take 4)
    let height := u32FromLEBytes ((src.drop 8).take 4)
    let compressed := src.drop 12
    match c.decompress compressed with
    | none => .ioError .corruptPayload
    | some d =>
      match reconstruct width height d with
      | none => .panicked
      | some img => .ok img

/-- A concrete lossless backend instance (identity compression), used to
instantiate the abstract `Codec` on concrete inputs. -/
def idCodec : Codec :=
  ⟨fun _ b => b, fun b => some b⟩

/-! ## Helper lemmas -/

theorem build_pixel_data_eq : ∀ (n : Nat) (buf : List Nat), buf.length = 4 * n →
    build_pixel_data n buf = buf := by
  intro n
  induction n with
  | zero =>
    intro buf hl
    simp only [build_pixel_data]
    exact (List.eq_nil_of_length_eq_zero (by omega)).symm
  | succ n ih =>
    intro buf hl
    rw [build_pixel_data, ih (buf.drop 4) (by simp [List.length_drop]; omega),
      List.take_append_drop]

theorem u32_le_roundtrip (n : Nat) (hn : n < u32Mod) :
    u32FromLEBytes (u32ToLEBytes n) = n := by
  show n % 256 + n / 256 % 256 * 256 + n / 65536 % 256 * 65536 +
    n / 16777216 % 256 * 16777216 = n
  unfold u32Mod at hn
  omega

theorem length_write4 (l : List Nat) (off r g b a : Nat) (h : off + 4 ≤ l.length) :
    (write4 l off r g b a).length = l.length := by
  simp only [write4, List.length_append, List.length_take, List.length_drop,
    List.length_cons, List.length_nil]
  omega

theorem write4_take (l : List Nat) (off r g b a : Nat) (h : off + 4 ≤ l.length) :
    (write4 l off r g b a).take (off + 4) = l.take off ++ [r, g, b, a] := by
  rw [write4]
  exact List.take_left' (by simp [List.length_take, List.length_append]; omega)

theorem write4_drop (l : List Nat) (off r g b a m : Nat) (h : off + 4 ≤ l.length)
    (hm : off + 4 ≤ m) :
    (write4 l off r g b a).drop m = l.drop m := by
  have hj : m = (off + 4) + (m - (off + 4)) := by omega
  rw [write4, hj, ← List.drop_drop,
    List.drop_left' (by simp [List.length_take, List.length_append]; omega),
    List.drop_drop]

theorem take_four (d : List Nat) (k : Nat) (h : k + 4 ≤ d.length) :
    (d.drop k).take 4 =
      [d.getD k 0, d.getD (k + 1) 0, d.getD (k + 2) 0, d.getD (k + 3) 0] := by
  apply List.ext_getElem?
  intro n
  match n with
  | 0 =>
    simp [List.getElem?_take_of_lt, List.getElem?_drop, List.getD,
      List.getElem?_eq_getElem (show k < d.length by omega)]
  | 1 =>
    simp [List.getElem?_take_of_lt, List.getElem?_drop, List.getD,
      List.getElem?_eq_getElem (show k + 1 < d.length by omega)]
  | 2 =>
    simp [List.getElem?_take_of_lt, List.getElem?_drop, List.getD,
      List.getElem?_eq_getElem (show k + 2 < d.length by omega)]
  | 3 =>
    simp [List.getElem?_take_of_lt, List.getElem?_drop, List.getD,
      List.getElem?_eq_getElem (show k + 3 < d.length by omega)]
  | n + 4 =>
    have h1 : ((d.drop k).take 4).length ≤ n + 4 := by
      simp [List.length_take, List.length_drop]
    have h2 : ([d.getD k 0, d.getD (k + 1) 0, d.getD (k + 2) 0,
        d.getD (k + 3) 0] : List Nat).length ≤ n + 4 := by
      simp
    rw [List.getElem?_eq_none h1, List.getElem?_eq_none h2]

theorem get?_eq_some_getD (d : List Nat) (k : Nat) (h : k < d.length) :
    d.get? k = some (d.getD k 0) := by
  rw [List.get?_eq_getElem?, List.getElem?_eq_getElem h,
    List.getD_eq_getElem _ _ h]

/-- Main characterization of the pixel-fill loop (`main.rs:116-126`) in
a run that stays in bounds: processing groups `i, ..., i+n-1` overwrites
exactly the bytes `4*i, ..., 4*(i+n)-1` of the image buffer with the
corresponding bytes of the decompressed data `d`, and touches nothing
else. -/
theorem fill_pixels_eq (w h : Nat) (hw : 0 < w) (d : List Nat) :
    ∀ (n i : Nat) (l : List Nat), l.length = w * h * 4 → i + n ≤ w * h →
      4 * (i + n) ≤ d.length →
      fill_pixels w d ⟨w, h, l⟩ i n =
        some ⟨w, h, l.take (4 * i) ++ (d.drop (4 * i)).take (4 * n) ++
          l.drop (4 * (i + n))⟩ := by
  intro n
  induction n with
  | zero =>
    intro i l hl hi hd
    simp [fill_pixels]
  | succ n ih =>
    intro i l hl hi hd
    have hwh : i + (n + 1) ≤ w * h := hi
    have hb : i * 4 + 4 ≤ d.length := by omega
    have hlb : i * 4 + 4 ≤ l.length := by omega
    have hx : i % w < w := Nat.mod_lt _ hw
    have hy : i / w < h := by
      rw [Nat.div_lt_iff_lt_mul hw, Nat.mul_comm h w]
      omega
    rw [fill_pixels,
      get?_eq_some_getD d (i * 4) (by omega),
      get?_eq_some_getD d (i * 4 + 1) (by omega),
      get?_eq_some_getD d (i * 4 + 2) (by omega),
      get?_eq_some_getD d (i * 4 + 3) (by omega)]
    simp only [Option.bind_eq_bind, Option.some_bind, put_pixel]
    rw [if_pos ⟨hx, hy⟩]
    simp only [Option.some_bind]
    have hoff : (i / w * w + i % w) * 4 = i * 4 := by
      rw [Nat.div_add_mod']
    rw [hoff]
    rw [ih (i + 1) (write4 l (i * 4) _ _ _ _)
      (by rw [length_write4 l _ _ _ _ _ hlb]; exact hl)
      (by omega) (by omega)]
    refine congrArg some (congrArg (Raster.mk w h) ?_)
    have e2 : 4 * i = i * 4 := by omega
    have e1 : 4 * (i + 1) = i * 4 + 4 := by omega
    have e5 : 4 * (i + 1 + n) = 4 * (i + (n + 1)) := by omega
    rw [e1, e2, e5, write4_take l (i * 4) _ _ _ _ hlb,
      write4_drop l (i * 4) _ _ _ _ _ hlb (by omega)]
    have e3 : 4 * (n + 1) = 4 + 4 * n := by omega
    rw [e3, List.take_add, List.drop_drop, take_four d (i * 4) hb]
    simp [List.append_assoc]

/-- A successful in-bounds run of the fill loop over at least one group
implies the decompressed data covers all the groups read. -/
theorem fill_pixels_length (w : Nat) (d : List Nat) :
    ∀ (n i : Nat) (img img2 : Raster), fill_pixels w d img i n = some img2 →
      n = 0 ∨ 4 * (i + n) ≤ d.length := by
  intro n
  induction n with
  | zero => intro i img img2 _; exact Or.inl rfl
  | succ n ih =>
    intro i img img2 hrun
    rw [fill_pixels] at hrun
    simp only [Option.bind_eq_bind, Option.bind_eq_some] at hrun
    obtain ⟨r, hr, g, hg, b, hb, a, ha, img1, hput, hrec⟩ := hrun
    rw [List.get?_eq_getElem?] at ha
    obtain ⟨h3, -⟩ := List.getElem?_eq_some_iff.mp ha
    rcases ih (i + 1) img1 img2 hrec with h0 | hlen
    · subst h0
      right
      omega
    · right
      omega

theorem length_u32ToLEBytes (n : Nat) : (u32ToLEBytes n).length = 4 := rfl

theorem length_magicBytes : magicBytes.length = 4 := rfl

/-- With in-range dimensions (`width*height*4 < 2^32`) and a decompressed
buffer of exactly the expected size, the reconstruction step rebuilds
precisely that buffer as the image. -/
theorem reconstruct_eq (w h : Nat) (buf : List Nat) (hsm : w * h * 4 < u32Mod)
    (hlen : buf.length = w * h * 4) :
    reconstruct w h buf = some ⟨w, h, buf⟩ := by
  unfold u32Mod at hsm
  have hcount : u32_pixel_count w h = w * h * 4 := by
    unfold u32_pixel_count u32Mod
    rw [Nat.mod_eq_of_lt (by omega), Nat.mod_eq_of_lt (by omega)]
  rw [reconstruct, hcount]
  have hdiv : w * h * 4 / 4 = w * h := by omega
  rw [hdiv, rgbaImageNew]
  rcases Nat.eq_zero_or_pos (w * h) with h0 | hpos
  · rw [h0]
    have hnil : buf = [] := List.eq_nil_of_length_eq_zero (by omega)
    rw [hnil]
    simp [fill_pixels]
  · have hw : 0 < w := by
      rcases Nat.eq_zero_or_pos w with hw0 | hw
      · rw [hw0] at hpos; simp at hpos
      · exact hw
    rw [fill_pixels_eq w h hw buf (w * h) 0 (List.replicate (w * h * 4) 0)
      (by simp) (by omega) (by omega)]
    have t1 : buf.take (4 * (w * h)) = buf :=
      List.take_of_length_le (by omega)
    have t2 : (List.replicate (w * h * 4) (0 : Nat)).drop (4 * (0 + w * h)) = [] :=
      List.drop_eq_nil_of_le (by simp; omega)
    simp [t1, t2]
    omega

/-- Decoding the encoder's output of any well-formed raster with
`width*height*4 < 2^32` yields that raster back, provided the backend is
lossless on the raster's pixel buffer. -/
theorem decompress_convert (c : Codec) (w h : Nat) (buf : List Nat)
    (hw : w < u32Mod) (hh : h < u32Mod) (hsm : w * h * 4 < u32Mod)
    (hlen : buf.length = w * h * 4)
    (hc : c.decompress (c.compress best_level buf) = some buf) :
    decompress_shivanosh c (convert_image_to_shivanosh c ⟨w, h, buf⟩) =
      .ok ⟨w, h, buf⟩ := by
  have hbpd : build_pixel_data (w * h) buf = buf :=
    build_pixel_data_eq _ _ (by omega)
  have hsrc : convert_image_to_shivanosh c ⟨w, h, buf⟩ =
      magicBytes ++ (u32ToLEBytes w ++ (u32ToLEBytes h ++
        c.compress best_level buf)) := by
    simp [convert_image_to_shivanosh, hbpd]
  rw [hsrc]
  set P := c.compress best_level buf with hP
  have hlenE : (magicBytes ++ (u32ToLEBytes w ++ (u32ToLEBytes h ++ P))).length =
      12 + P.length := by
    simp [magicBytes, u32ToLEBytes]
    omega
  have htake4 : (magicBytes ++ (u32ToLEBytes w ++ (u32ToLEBytes h ++ P))).take 4 =
      magicBytes := List.take_left' length_magicBytes
  have hdrop4 : (magicBytes ++ (u32ToLEBytes w ++ (u32ToLEBytes h ++ P))).drop 4 =
      u32ToLEBytes w ++ (u32ToLEBytes h ++ P) := List.drop_left' length_magicBytes
  have hdrop8 : (magicBytes ++ (u32ToLEBytes w ++ (u32ToLEBytes h ++ P))).drop 8 =
      u32ToLEBytes h ++ P := by
    rw [show (8 : Nat) = 4 + 4 from rfl, ← List.drop_drop, hdrop4]
    exact List.drop_left' (length_u32ToLEBytes w)
  have hdrop12 : (magicBytes ++ (u32ToLEBytes w ++ (u32ToLEBytes h ++ P))).drop 12 =
      P := by
    rw [show (12 : Nat) = 8 + 4 from rfl, ← List.drop_drop, hdrop8]
    exact List.drop_left' (length_u32ToLEBytes h)
  have hwidth : u32FromLEBytes
      (((magicBytes ++ (u32ToLEBytes w ++ (u32ToLEBytes h ++ P))).drop 4).take 4) = w := by
    rw [hdrop4, List.take_left' (length_u32ToLEBytes w)]
    exact u32_le_roundtrip w hw
  have hheight : u32FromLEBytes
      (((magicBytes ++ (u32ToLEBytes w ++ (u32ToLEBytes h ++ P))).drop 8).take 4) = h := by
    rw [hdrop8, List.take_left' (length_u32ToLEBytes h)]
    exact u32_le_roundtrip h hh
  rw [decompress_shivanosh]
  rw [if_neg (by omega), if_neg (by rw [htake4]; exact fun hne => hne rfl),
    if_neg (by omega), if_neg (by omega)]
  simp only [hwidth, hheight, hdrop12, hc]
  rw [reconstruct_eq w h buf hsm hlen]

/-- The number of 4-byte groups the decoder's loop processes never
exceeds the declared pixel count. -/
theorem groups_le (w h : Nat) : u32_pixel_count w h / 4 ≤ w * h := by
  unfold u32_pixel_count
  calc w * h % u32Mod * 4 % u32Mod / 4
      ≤ w * h % u32Mod * 4 / 4 := Nat.div_le_div_right (Nat.mod_le _ _)
    _ = w * h % u32Mod := Nat.mul_div_cancel _ (by omega)
    _ ≤ w * h := Nat.mod_le _ _

/-- Shape of any successful reconstruction: the decompressed data covers
every group the loop reads, and the image buffer is the processed prefix
of the decompressed data followed by the untouched zero padding. -/
theorem reconstruct_some_eq (w h : Nat) (hw : 0 < w) (d : List Nat) (img : Raster)
    (hok : reconstruct w h d = some img) :
    4 * (u32_pixel_count w h / 4) ≤ d.length ∧
      img = ⟨w, h, d.take (4 * (u32_pixel_count w h / 4)) ++
        (List.replicate (w * h * 4) 0).drop (4 * (u32_pixel_count w h / 4))⟩ := by
  rw [reconstruct, rgbaImageNew] at hok
  rcases Nat.eq_zero_or_pos (u32_pixel_count w h / 4) with h0 | hpos
  · rw [h0] at hok
    simp only [fill_pixels, Option.some_inj] at hok
    refine ⟨by omega, ?_⟩
    rw [h0, ← hok]
    simp
  · have hd : 4 * (0 + u32_pixel_count w h / 4) ≤ d.length := by
      rcases fill_pixels_length w d (u32_pixel_count w h / 4) 0 _ _ hok with hz | hb
      · omega
      · exact hb
    rw [fill_pixels_eq w h hw d (u32_pixel_count w h / 4) 0 _
      (by simp) (by have := groups_le w h; omega) hd] at hok
    simp only [Option.some_inj] at hok
    refine ⟨by omega, ?_⟩
    rw [← hok]
    simp

/-- Conversely, whenever the decompressed data covers every group the
loop reads, reconstruction succeeds with that shape. -/
theorem reconstruct_of_le_length (w h : Nat) (hw : 0 < w) (d : List Nat)
    (hlen : 4 * (u32_pixel_count w h / 4) ≤ d.length) :
    reconstruct w h d = some ⟨w, h, d.take (4 * (u32_pixel_count w h / 4)) ++
      (List.replicate (w * h * 4) 0).drop (4 * (u32_pixel_count w h / 4))⟩ := by
  rw [reconstruct, rgbaImageNew,
    fill_pixels_eq w h hw d (u32_pixel_count w h / 4) 0 _
      (by simp) (by have := groups_le w h; omega) (by omega)]
  simp

/-! ## Claims -/

/-- Claim C1: the spec requires a container whose decompressed payload is
smaller than `width*height*4` to be rejected with `SizeMismatch` before
any pixel is materialized. The code has no such check: on the spec's own
example (width 10, height 10, a 50-byte decompressed payload) the loop
indexes `decompressed_data` past its end and panics instead of returning
a typed error. -/
theorem C1_size_mismatch_panics :
    decompress_shivanosh idCodec
      (magicBytes ++ u32ToLEBytes 10 ++ u32ToLEBytes 10 ++ List.replicate 50 0) =
      .panicked := by
  rfl

/-- Claim C2: the spec states the decoder never panics on malformed input
and that every failure path returns a typed result. The code panics on a
well-formed header whose payload decompresses to fewer than
`width*height*4` bytes: here a 1×1 container whose payload decompresses
to the empty byte string. -/
theorem C2_malformed_input_panics :
    decompress_shivanosh idCodec
      (magicBytes ++ u32ToLEBytes 1 ++ u32ToLEBytes 1) = .panicked := by
  rfl

/-- Claim C3: for every Raster with `buffer.length = width*height*4` and
`width*height ≤ N` (with `N = 2^30 - 1`, so the `u32` byte count does not
overflow) and arbitrary pixel bytes, decoding the encoder's output
yields the Raster back exactly, pixel for pixel and including alpha —
assuming the compression backend is lossless, which the spec demands of
the Compression Codec. -/
theorem C3_roundtrip (c : Codec)
    (hc : ∀ lvl b, c.decompress (c.compress lvl b) = some b)
    (r : Raster) (hw : r.width < u32Mod) (hh : r.height < u32Mod)
    (hN : r.width * r.height ≤ 1073741823)
    (hlen : r.data.length = r.width * r.height * 4) :
    decompress_shivanosh c (convert_image_to_shivanosh c r) = .ok r := by
  obtain ⟨w, h, buf⟩ := r
  exact decompress_convert c w h buf hw hh
    (by unfold u32Mod at *; simp only at hN; omega)
    hlen (hc _ _)

/-- Witness for C3 on a concrete 1×2 raster. -/
theorem C3_roundtrip_witness :
    decompress_shivanosh idCodec
      (convert_image_to_shivanosh idCodec ⟨1, 2, [9, 8, 7, 6, 5, 4, 3, 2]⟩) =
      .ok ⟨1, 2, [9, 8, 7, 6, 5, 4, 3, 2]⟩ :=
  C3_roundtrip idCodec (fun _ _ => rfl) ⟨1, 2, [9, 8, 7, 6, 5, 4, 3, 2]⟩
    (by decide) (by decide) (by decide) (by decide)

/-- Claim C4: any source of at least 4 bytes whose first 4 bytes are not
the ASCII tag `"MYIF"` is rejected immediately with the invalid-data
error (the spec's `InvalidFormat`), whatever the remaining content. -/
theorem C4_bad_magic (c : Codec) (src : List Nat) (h4 : 4 ≤ src.length)
    (hm : src.take 4 ≠ magicBytes) :
    decompress_shivanosh c src = .ioError .invalidData := by
  rw [decompress_shivanosh, if_neg (by omega), if_pos hm]

/-- Witness for C4 on an all-zero 7-byte source. -/
theorem C4_bad_magic_witness :
    decompress_shivanosh idCodec [0, 0, 0, 0, 1, 2, 3] = .ioError .invalidData :=
  C4_bad_magic idCodec [0, 0, 0, 0, 1, 2, 3] (by decide) (by decide)

/-- Claim C5, counterexample: the claim says every source of fewer than
12 bytes fails with `TruncatedHeader` (the end-of-source error kind). A
4-byte source with a bad magic tag is shorter than 12 bytes but fails
with the invalid-data error of the magic check instead. -/
theorem C5_truncated_counterexample :
    ([0, 0, 0, 0] : List Nat).length < 12 ∧
      decompress_shivanosh idCodec [0, 0, 0, 0] = .ioError .invalidData ∧
      DecodeOutcome.ioError .invalidData ≠ .ioError .unexpectedEof := by
  refine ⟨by decide, rfl, by decide⟩

/-- Claim C5, amended: a source of fewer than 12 bytes always fails; it
fails with the invalid-data error (`InvalidFormat`) when it holds at
least 4 bytes and they differ from `"MYIF"`, and with the end-of-source
error (`TruncatedHeader`) otherwise. -/
theorem C5_truncated_header (c : Codec) (src : List Nat) (hlen : src.length < 12) :
    decompress_shivanosh c src =
      if 4 ≤ src.length ∧ src.take 4 ≠ magicBytes then .ioError .invalidData
      else .ioError .unexpectedEof := by
  rw [decompress_shivanosh]
  by_cases h4 : src.length < 4
  · have hcond : ¬(4 ≤ src.length ∧ src.take 4 ≠ magicBytes) :=
      fun hc2 => absurd hc2.1 (by omega)
    rw [if_pos h4, if_neg hcond]
  · rw [if_neg h4]
    by_cases hm : src.take 4 ≠ magicBytes
    · have hcond : 4 ≤ src.length ∧ src.take 4 ≠ magicBytes := ⟨by omega, hm⟩
      rw [if_pos hm, if_pos hcond]
    · have hcond : ¬(4 ≤ src.length ∧ src.take 4 ≠ magicBytes) :=
        fun hc2 => hm hc2.2
      rw [if_neg hm, if_neg hcond]
      by_cases h8 : src.length < 8
      · rw [if_pos h8]
      · rw [if_neg h8, if_pos (show src.length < 12 by omega)]

/-- Witness for C5 (amended) on the bare 4-byte magic tag. -/
theorem C5_truncated_header_witness :
    decompress_shivanosh idCodec [77, 89, 73, 70] = .ioError .unexpectedEof := by
  rw [C5_truncated_header idCodec [77, 89, 73, 70] (by decide)]
  decide

/-- Claim C6: encoding the 0×0 Raster with an empty buffer and decoding
the result yields the empty Raster, not an error (backend assumed
lossless). -/
theorem C6_zero_size (c : Codec)
    (hc : ∀ lvl b, c.decompress (c.compress lvl b) = some b) :
    decompress_shivanosh c (convert_image_to_shivanosh c ⟨0, 0, []⟩) =
      .ok ⟨0, 0, []⟩ :=
  decompress_convert c 0 0 [] (by decide) (by decide) (by decide) rfl (hc _ _)

/-- Witness for C6 with the identity backend. -/
theorem C6_zero_size_witness :
    decompress_shivanosh idCodec (convert_image_to_shivanosh idCodec ⟨0, 0, []⟩) =
      .ok ⟨0, 0, []⟩ :=
  C6_zero_size idCodec (fun _ _ => rfl)

/-- Claim C7: encoding is deterministic — two runs of the encoder on the
same Raster (same compression level, same framing) produce byte-identical
output. The encoder is a pure function of the Raster and the backend. -/
theorem C7_deterministic (c : Codec) (r1 r2 : Raster) (h : r1 = r2) :
    convert_image_to_shivanosh c r1 = convert_image_to_shivanosh c r2 :=
  congrArg (convert_image_to_shivanosh c) h

/-- Witness for C7 on a concrete raster. -/
theorem C7_deterministic_witness :
    convert_image_to_shivanosh idCodec ⟨1, 1, [1, 2, 3, 4]⟩ =
      convert_image_to_shivanosh idCodec ⟨1, 1, [1, 2, 3, 4]⟩ :=
  C7_deterministic idCodec ⟨1, 1, [1, 2, 3, 4]⟩ ⟨1, 1, [1, 2, 3, 4]⟩ rfl

/-- Claim C8: the encoder's output is exactly `"MYIF"`, the width as 4
little-endian bytes, the height as 4 little-endian bytes, then the
backend's compression (at its best level) of the full pixel buffer, with
no length prefix; on the 2×1 raster with pixels
`(255,0,0,255), (0,255,0,128)` this is
`"MYIF" ++ 02 00 00 00 ++ 01 00 00 00 ++ compress(payload)`. -/
theorem C8_byte_layout (c : Codec) (r : Raster)
    (hlen : r.data.length = r.width * r.height * 4) :
    convert_image_to_shivanosh c r =
      [77, 89, 73, 70] ++ u32ToLEBytes r.width ++ u32ToLEBytes r.height ++
        c.compress best_level r.data ∧
    convert_image_to_shivanosh c ⟨2, 1, [255, 0, 0, 255, 0, 255, 0, 128]⟩ =
      [77, 89, 73, 70, 2, 0, 0, 0, 1, 0, 0, 0] ++
        c.compress best_level [255, 0, 0, 255, 0, 255, 0, 128] := by
  constructor
  · rw [convert_image_to_shivanosh, build_pixel_data_eq _ _ (by omega)]
    rfl
  · rfl

/-- Witness for C8 at the spec's concrete 2×1 example. -/
theorem C8_byte_layout_witness :
    convert_image_to_shivanosh idCodec ⟨2, 1, [255, 0, 0, 255, 0, 255, 0, 128]⟩ =
      [77, 89, 73, 70] ++ u32ToLEBytes 2 ++ u32ToLEBytes 1 ++
        idCodec.compress best_level [255, 0, 0, 255, 0, 255, 0, 128] ∧
    convert_image_to_shivanosh idCodec ⟨2, 1, [255, 0, 0, 255, 0, 255, 0, 128]⟩ =
      [77, 89, 73, 70, 2, 0, 0, 0, 1, 0, 0, 0] ++
        idCodec.compress best_level [255, 0, 0, 255, 0, 255, 0, 128] :=
  C8_byte_layout idCodec ⟨2, 1, [255, 0, 0, 255, 0, 255, 0, 128]⟩ (by decide)

/-- Claim C9: in every successful reconstruction with `width > 0`, the
loop walks the decompressed buffer in 4-byte groups, group `i` lands at
image coordinate `(i mod width, i div width)` with its four bytes
assigned, in order, to red, green, blue and alpha of that pixel; and the
result depends only on the first `width*height*4` decompressed bytes, so
trailing excess is ignored. -/
theorem C9_pixel_fill (w h : Nat) (d : List Nat) (img : Raster) (hw : 0 < w)
    (hok : reconstruct w h d = some img) :
    (∀ i, i < u32_pixel_count w h / 4 →
      get_pixel img (i % w) (i / w) = some ((d.drop (i * 4)).take 4)) ∧
    (∀ d2 : List Nat, d2.take (w * h * 4) = d.take (w * h * 4) →
      reconstruct w h d2 = some img) := by
  obtain ⟨hdlen, himg⟩ := reconstruct_some_eq w h hw d img hok
  have hgle : u32_pixel_count w h / 4 ≤ w * h := groups_le w h
  have hg4 : 4 * (u32_pixel_count w h / 4) ≤ w * h * 4 := by omega
  constructor
  · intro i hi
    have hx : i % w < w := Nat.mod_lt _ hw
    have hy : i / w < h := by
      rw [Nat.div_lt_iff_lt_mul hw, Nat.mul_comm h w]
      omega
    rw [himg, get_pixel, if_pos ⟨hx, hy⟩]
    simp only
    have hoff : (i / w * w + i % w) * 4 = i * 4 := by rw [Nat.div_add_mod']
    rw [hoff]
    have hlt : (d.take (4 * (u32_pixel_count w h / 4))).length =
        4 * (u32_pixel_count w h / 4) := by
      rw [List.length_take]
      omega
    rw [List.drop_append_of_le_length (by omega),
      List.take_append_of_le_length (by rw [List.length_drop]; omega),
      List.drop_take, List.take_take,
      Nat.min_eq_left (by omega)]
  · intro d2 htake
    have hlen2 : (d2.take (w * h * 4)).length = (d.take (w * h * 4)).length := by
      rw [htake]
    simp only [List.length_take] at hlen2
    have hd2 : 4 * (u32_pixel_count w h / 4) ≤ d2.length := by omega
    rw [reconstruct_of_le_length w h hw d2 hd2, himg]
    have ht : d2.take (4 * (u32_pixel_count w h / 4)) =
        d.take (4 * (u32_pixel_count w h / 4)) := by
      rw [← Nat.min_eq_left hg4, ← List.take_take, htake, List.take_take,
        Nat.min_eq_left hg4]
    rw [ht]

/-- Witness for C9 on a 2×1 image with one excess decompressed byte. -/
theorem C9_pixel_fill_witness :
    get_pixel ⟨2, 1, [1, 2, 3, 4, 5, 6, 7, 8]⟩ 1 0 =
      some ((([1, 2, 3, 4, 5, 6, 7, 8, 42] : List Nat).drop 4).take 4) ∧
    reconstruct 2 1 [1, 2, 3, 4, 5, 6, 7, 8] =
      some ⟨2, 1, [1, 2, 3, 4, 5, 6, 7, 8]⟩ := by
  have hok : reconstruct 2 1 [1, 2, 3, 4, 5, 6, 7, 8, 42] =
      some ⟨2, 1, [1, 2, 3, 4, 5, 6, 7, 8]⟩ := by rfl
  have hmain := C9_pixel_fill 2 1 [1, 2, 3, 4, 5, 6, 7, 8, 42]
    ⟨2, 1, [1, 2, 3, 4, 5, 6, 7, 8]⟩ (by decide) hok
  exact ⟨by have := hmain.1 1 (by decide); simpa using this,
    hmain.2 [1, 2, 3, 4, 5, 6, 7, 8] (by decide)⟩

/-- Claim C10: the expected payload byte count is computed in `u32`
arithmetic, so when the true `width*height*4` reaches `2^32` the count
wraps modulo `2^32` and the loop processes
`((width*height*4) mod 2^32) / 4` groups, not the declared
`width*height`. -/
theorem C10_overflow_wrap (w h : Nat) (hw : w < u32Mod) (hh : h < u32Mod)
    (hbig : u32Mod ≤ w * h * 4) :
    u32_pixel_count w h / 4 = w * h * 4 % u32Mod / 4 ∧
      u32_pixel_count w h / 4 ≠ w * h := by
  have hmod : u32_pixel_count w h = w * h * 4 % u32Mod := by
    unfold u32_pixel_count
    rw [Nat.mul_mod (w * h) 4 u32Mod,
      Nat.mod_eq_of_lt (show 4 < u32Mod by decide)]
  constructor
  · rw [hmod]
  · have hsmall : u32_pixel_count w h < u32Mod := by
      rw [hmod]
      exact Nat.mod_lt _ (by decide)
    unfold u32Mod at *
    omega

/-- Witness for C10 at width = height = 65536, where the wrapped count is
0 and the loop processes no group at all. -/
theorem C10_overflow_wrap_witness :
    u32_pixel_count 65536 65536 / 4 = 65536 * 65536 * 4 % u32Mod / 4 ∧
      u32_pixel_count 65536 65536 / 4 ≠ 65536 * 65536 :=
  C10_overflow_wrap 65536 65536 (by decide) (by decide) (by decide)

end Shivanosh
